import Mathlib

/-!
Verification of the Picard helper scripts:
  * `explain_sam_flags.py` — the SAM flag explainer,
  * `visualize_cluster_crosscheck_output.py` — cluster/edge extraction and color assignment,
  * `sample_relatedness_network.py` — the LOD→distance transform and matrix rescaling.

Each Python function used by a claim is embedded as a Lean definition that follows
the source line by line.  Python floats are modelled as real numbers for the
distance transform (which uses `exp`) and as rationals for the LOD comparisons in
`find_edges` (where only ordering and zero-tests occur).  A matrix cell in
`find_edges` is modelled as the pair of its comma-stripped text (the string the
code stores in an edge and compares for dedup) and the rational it parses to
(the value `float(...)` yields).
-/

set_option maxRecDepth 8000

/-! ## Definitions -/

/-- The fixed ordered flag table `lstFlags` from `explain_sam_flags.py`. -/
def lstFlags : List (String × Nat) :=
  [("read paired", 0x1),
   ("read mapped in proper pair", 0x2),
   ("read unmapped", 0x4),
   ("mate unmapped", 0x8),
   ("read reverse strand", 0x10),
   ("mate reverse strand", 0x20),
   ("first in pair", 0x40),
   ("second in pair", 0x80),
   ("not primary alignment", 0x100),
   ("read fails platform/vendor quality checks", 0x200),
   ("read is PCR or optical duplicate", 0x400),
   ("supplementary alignment", 0x800)]

/-- The loop body of `explain_sam_flags`: for each table entry whose mask has a
nonzero bitwise AND with the argument, the entry's name is printed; we collect
the printed names in order. -/
def explain_sam_flags (iFlags : Nat) : List String :=
  lstFlags.foldl (fun acc q => if iFlags &&& q.2 ≠ 0 then acc ++ [q.1] else acc) []

/-- `LOD_to_distance` from `sample_relatedness_network.py`:
`1 / (1 + exp(-.5 * (-LOD + 4)))` when `LOD > -10`, else the sentinel `1.2`. -/
noncomputable def LOD_to_distance (LOD : ℝ) : ℝ :=
  if LOD > -10 then 1 / (1 + Real.exp ((-0.5) * (-LOD + 4))) else 1.2

noncomputable def rescale_matrix (cols : List (String × List ℝ)) :
    List (String × List ℝ) :=
  cols.foldl
    (fun acc col =>
      if col.1 = "FILE" then acc
      else acc ++ [(col.1, col.2.map LOD_to_distance)]) []

/-- The fixed ordered hex color palette `hex_codes` (255 entries, verbatim from
the source). -/
def hex_codes : List String :=
  ["#000000", "#FFFF00", "#1CE6FF", "#FF34FF", "#FF4A46", "#008941",
   "#006FA6", "#FFDBE5", "#0000A6", "#63FFAC", "#8FB0FF", "#5A0007",
   "#FEFFE6", "#4FC601", "#BA0900", "#6B7900", "#00C2A0", "#FFAA92",
   "#FF90C9", "#B903AA", "#D16100", "#DDEFFF", "#A1C299", "#0AA6D8",
   "#013349", "#00846F", "#372101", "#FFB500", "#C2FFED", "#A079BF",
   "#CC0744", "#C0B9B2", "#C2FF99", "#001E09", "#00489C", "#6F0062",
   "#0CBD66", "#EEC3FF", "#456D75", "#B77B68", "#7A87A1", "#788D66",
   "#885578", "#FAD09F", "#FF8A9A", "#D157A0", "#BEC459", "#456648",
   "#0086ED", "#886F4C", "#34362D", "#B4A8BD", "#00A6AA", "#452C2C",
   "#636375", "#A3C8C9", "#FF913F", "#938A81", "#575329", "#00FECF",
   "#B05B6F", "#8CD0FF", "#3B9700", "#04F757", "#C8A1A1", "#1E6E00",
   "#7900D7", "#A77500", "#6367A9", "#A05837", "#6B002C", "#772600",
   "#D790FF", "#9B9700", "#549E79", "#FFF69F", "#201625", "#72418F",
   "#BC23FF", "#99ADC0", "#3A2465", "#922329", "#5B4534", "#FDE8DC",
   "#404E55", "#0089A3", "#CB7E98", "#A4E804", "#324E72", "#6A3A4C",
   "#83AB58", "#001C1E", "#D1F7CE", "#004B28", "#C8D0F6", "#A3A489",
   "#806C66", "#222800", "#BF5650", "#E83000", "#66796D", "#DA007C",
   "#FF1A59", "#8ADBB4", "#1E0200", "#5B4E51", "#C895C5", "#320033",
   "#FF6832", "#66E1D3", "#CFCDAC", "#D0AC94", "#7ED379", "#012C58",
   "#7A7BFF", "#D68E01", "#353339", "#78AFA1", "#FEB2C6", "#75797C",
   "#837393", "#943A4D", "#B5F4FF", "#D2DCD5", "#9556BD", "#6A714A",
   "#001325", "#02525F", "#0AA3F7", "#E98176", "#DBD5DD", "#5EBCD1",
   "#3D4F44", "#7E6405", "#02684E", "#962B75", "#8D8546", "#9695C5",
   "#E773CE", "#D86A78", "#3E89BE", "#CA834E", "#518A87", "#5B113C",
   "#55813B", "#E704C4", "#00005F", "#A97399", "#4B8160", "#59738A",
   "#FF5DA7", "#F7C9BF", "#643127", "#513A01", "#6B94AA", "#51A058",
   "#A45B02", "#1D1702", "#E20027", "#E7AB63", "#4C6001", "#9C6966",
   "#64547B", "#97979E", "#006A66", "#391406", "#F4D749", "#0045D2",
   "#006C31", "#DDB6D0", "#7C6571", "#9FB2A4", "#00D891", "#15A08A",
   "#BC65E9", "#FFFFFE", "#C6DC99", "#203B3C", "#671190", "#6B3A64",
   "#F5E1FF", "#FFA0F2", "#CCAA35", "#374527", "#8BB400", "#797868",
   "#C6005A", "#3B000A", "#C86240", "#29607C", "#402334", "#7D5A44",
   "#CCB87C", "#B88183", "#AA5199", "#B5D6C3", "#A38469", "#9F94F0",
   "#A74571", "#B894A6", "#71BB8C", "#00B433", "#789EC9", "#6D80BA",
   "#953F00", "#5EFF03", "#E4FFFC", "#1BE177", "#BCB1E5", "#76912F",
   "#003109", "#0060CD", "#D20096", "#895563", "#29201D", "#5B3213",
   "#A76F42", "#89412E", "#1A3A2A", "#494B5A", "#A88C85", "#F4ABAA",
   "#A3F3AB", "#00C6C8", "#EA8B66", "#958A9F", "#BDC9D2", "#9FA064",
   "#BE4700", "#658188", "#83A485", "#453C23", "#47675D", "#3A3F00",
   "#061203", "#DFFB71", "#868E7E", "#98D058", "#6C8F7D", "#D7BFC2",
   "#3C3E6E", "#D83D66", "#2F5D9B", "#6C5E46", "#D25B88", "#5B656C",
   "#00B57F", "#545C46", "#866097", "#365D25", "#252F99", "#00CCFF",
   "#674E60", "#FC009C", "#92896B"]

/-- Numeric fingerprint of a hex color string, used only to decide palette
distinctness over fast natural-number comparisons. -/
def hexKey (s : String) : Nat :=
  s.data.foldl (fun acc c => acc * 256 + c.toNat) 0

/-- The first loop of `create_color_map`
(`visualize_cluster_crosscheck_output.py`): collect the individuals of the
sample → individual map in first-seen order, skipping repeats. -/
def firstSeenIndividuals (m : List (String × String)) : List String :=
  m.foldl (fun acc p => if p.2 ∈ acc then acc else acc ++ [p.2]) []

/-- One iteration of the second loop of `create_color_map`: insert
`individuals[i] → hex_codes[i]` into the map; an out-of-range palette index
(Python's `IndexError`) is modelled as `none`. -/
def colorStep (individuals : List String)
    (acc : Option (List (String × String))) (i : Nat) :
    Option (List (String × String)) :=
  match acc, individuals[i]?, hex_codes[i]? with
  | some cm, some ind, some c => some (cm ++ [(ind, c)])
  | _, _, _ => none

/-- `create_color_map` from `visualize_cluster_crosscheck_output.py`:
`for i in range(0, len(individuals)): color_map[individuals[i]] = hex_codes[i]`.
The dict is modelled as an insertion-ordered association list (the individuals
are pairwise distinct, so insertion is append). -/
def create_color_map (m : List (String × String)) :
    Option (List (String × String)) :=
  (List.range (firstSeenIndividuals m).length).foldl
    (colorStep (firstSeenIndividuals m)) (some [])

/-- Scaffolding for the C4 witness: 270 pairwise-distinct individual names. -/
def probeName (n : Nat) : String :=
  String.mk (List.replicate n 'a')

/-- Scaffolding for the C4 witness: a sample → individual map with 270 distinct
individuals. -/
def probeMap : List (String × String) :=
  (List.range 270).map (fun i => (probeName i, probeName i))

/-- An edge emitted by `find_edges`: `(row sample, column sample, LOD text)`. -/
abbrev Edge := String × String × String

/-- A row of the reformatted crosscheck matrix handed to `find_edges`.  A cell
is `(column sample, comma-stripped LOD text, parsed LOD value)`: the code keeps
the text (stored in edges and compared for dedup) and uses `float(...)` of it —
the third component — for the zero and threshold tests. -/
structure MatrixRow where
  file : String
  cells : List (String × String × ℚ)
deriving DecidableEq

/-- The inner loop body of `find_edges` over one cell of a row.  State:
`(edges so far, no_coverage flag)`.  The `FILE` key of the row dict is skipped;
a nonzero parsed score clears the flag; a score above the threshold appends an
edge unless its mirror is already present or it would be a self-loop. -/
def processCell (minw : ℚ) (rowSample : String)
    (st : List Edge × Bool) (cell : String × String × ℚ) : List Edge × Bool :=
  if cell.1 = "FILE" then st
  else
    let st1 := if cell.2.2 ≠ 0 then (st.1, false) else st
    if cell.2.2 > minw then
      if (cell.1, rowSample, cell.2.1) ∈ st1.1 then st1
      else if cell.1 = rowSample then st1
      else (st1.1 ++ [(rowSample, cell.1, cell.2.1)], st1.2)
    else st1

/-- The outer loop body of `find_edges` over one matrix row.  State:
`(edges so far, no-coverage samples so far)`.  Rows whose `FILE` sample is not
a singleton are skipped; otherwise the cells are folded with a fresh
`no_coverage = True`, and the row sample is appended to the no-coverage list
when the flag survives. -/
def processRow (singletons : List String) (minw : ℚ)
    (st : List Edge × List String) (row : MatrixRow) : List Edge × List String :=
  if row.file ∈ singletons then
    let inner := row.cells.foldl (processCell minw row.file) (st.1, true)
    (inner.1, if inner.2 then st.2 ++ [row.file] else st.2)
  else st

/-- `find_edges` from `visualize_cluster_crosscheck_output.py`: returns the
list of edges and the list of no-coverage samples. -/
def find_edges (singletons : List String) (matrix : List MatrixRow)
    (minw : ℚ) : List Edge × List String :=
  matrix.foldl (processRow singletons minw) ([], [])

/-- Scaffolding shared by the C1 and C9 witnesses: a singleton row whose only
non-FILE cell parses to zero. -/
def rowA0 : MatrixRow := ⟨"A", [("B", "0", (0 : ℚ))]⟩

/-- The invariant `find_edges` maintains on its edge list: no mirror pair of
distinct samples occurs twice, and there is no self-loop. -/
def EdgeInv (E : List Edge) : Prop :=
  (∀ a b t, a ≠ b → ¬((a, b, t) ∈ E ∧ (b, a, t) ∈ E)) ∧
  ∀ a t, (a, a, t) ∉ E

/-- Scaffolding for the C3 witness: singleton row for sample `A` with an
above-threshold score against `B`. -/
def rowAB : MatrixRow := ⟨"A", [("B", "7.0", (7 : ℚ))]⟩

/-- Scaffolding for the C3 witness: the mirror row for sample `B`. -/
def rowBA : MatrixRow := ⟨"B", [("A", "7.0", (7 : ℚ))]⟩

/-! ## Theorems -/

theorem foldl_if_append {α β : Type} (P : α → Prop) [DecidablePred P] (f : α → β) :
    ∀ (l : List α) (acc : List β),
      l.foldl (fun a x => if P x then a ++ [f x] else a) acc
        = acc ++ (l.filter (fun x => decide (P x))).map f := by
  intro l
  induction l with
  | nil => intro acc; simp
  | cons x l ih =>
    intro acc
    by_cases h : P x
    · simp [List.filter_cons, h, ih]
    · simp [List.filter_cons, h, ih]

theorem explain_eq_filter_map (n : Nat) :
    explain_sam_flags n
      = (lstFlags.filter (fun q => decide (n &&& q.2 ≠ 0))).map Prod.fst := by
  have h := foldl_if_append (fun q : String × Nat => n &&& q.2 ≠ 0) Prod.fst lstFlags []
  simpa [explain_sam_flags] using h

theorem and_mod_pow12 (n m : Nat) (hm : 4095 &&& m = m) :
    (n % 4096) &&& m = n &&& m := by
  have h : n % 4096 = n &&& 4095 := by
    have h12 := Nat.and_pow_two_sub_one_eq_mod n 12
    norm_num at h12
    omega
  rw [h, Nat.and_assoc, hm]

/-- C8: `explain_sam_flags` produces, in fixed table order, exactly the names of
the entries whose bitmask ANDed with the argument is nonzero; in particular
`explain 0 = []`, `explain (0x1 ||| 0x4) = ["read paired", "read unmapped"]`,
and `explain 0xFFF` lists all twelve names in table order. -/
theorem explain_sam_flags_spec :
    (∀ n : Nat, explain_sam_flags n
        = (lstFlags.filter (fun q => decide (n &&& q.2 ≠ 0))).map Prod.fst) ∧
    explain_sam_flags 0 = [] ∧
    explain_sam_flags (0x1 ||| 0x4) = ["read paired", "read unmapped"] ∧
    explain_sam_flags 0xFFF = lstFlags.map Prod.fst := by
  refine ⟨explain_eq_filter_map, ?_, ?_, ?_⟩
  · decide
  · decide
  · decide

/-- C10: the explainer's output depends only on the low 12 bits of its argument:
`explain n = explain (n % 4096)` for every `n`, since every mask in the table is
a single bit no higher than `0x800`. -/
theorem explain_sam_flags_low_bits (n : Nat) :
    explain_sam_flags n = explain_sam_flags (n % 4096) := by
  rw [explain_eq_filter_map, explain_eq_filter_map]
  congr 1
  apply List.filter_congr
  intro q hq
  have step : ∀ m : Nat, 4095 &&& m = m →
      (decide (n &&& m ≠ 0) = decide ((n % 4096) &&& m ≠ 0)) := by
    intro m hm
    rw [and_mod_pow12 n m hm]
  fin_cases hq <;> exact step _ (by decide)

theorem LOD_to_distance_of_gt (LOD : ℝ) (h : LOD > -10) :
    LOD_to_distance LOD = 1 / (1 + Real.exp ((-0.5) * (-LOD + 4))) := by
  simp [LOD_to_distance, h]

theorem LOD_to_distance_pos (LOD : ℝ) (h : LOD > -10) : 0 < LOD_to_distance LOD := by
  rw [LOD_to_distance_of_gt LOD h]
  have hE := Real.exp_pos ((-0.5) * (-LOD + 4))
  positivity

theorem LOD_to_distance_lt_one (LOD : ℝ) (h : LOD > -10) : LOD_to_distance LOD < 1 := by
  rw [LOD_to_distance_of_gt LOD h]
  have hE := Real.exp_pos ((-0.5) * (-LOD + 4))
  rw [div_lt_one (by linarith)]
  linarith

theorem LOD_to_distance_strict_anti (a b : ℝ) (ha : -10 < a) (hab : a < b) :
    LOD_to_distance b < LOD_to_distance a := by
  have hb : -10 < b := lt_trans ha hab
  rw [LOD_to_distance_of_gt a ha, LOD_to_distance_of_gt b hb]
  have hEa := Real.exp_pos ((-0.5) * (-a + 4))
  have hexp : Real.exp ((-0.5) * (-a + 4)) < Real.exp ((-0.5) * (-b + 4)) := by
    apply Real.exp_lt_exp.mpr
    linarith
  apply one_div_lt_one_div_of_lt (by linarith) (by linarith)

/-- C7: on the domain `LOD > -10` the distance transform is strictly decreasing
and its value lies in the open interval `(0, 1)`. -/
theorem LOD_to_distance_logistic_props :
    (∀ a b : ℝ, -10 < a → a < b → LOD_to_distance b < LOD_to_distance a) ∧
    (∀ x : ℝ, -10 < x → 0 < LOD_to_distance x ∧ LOD_to_distance x < 1) :=
  ⟨LOD_to_distance_strict_anti,
   fun x hx => ⟨LOD_to_distance_pos x hx, LOD_to_distance_lt_one x hx⟩⟩

/-- Witness for C7 at the concrete inputs `a = 0`, `b = 1`, `x = 0`. -/
theorem LOD_to_distance_logistic_props_witness :
    ((-10 : ℝ) < 0) ∧ ((0 : ℝ) < 1) ∧
    LOD_to_distance 1 < LOD_to_distance 0 ∧
    (0 < LOD_to_distance 0 ∧ LOD_to_distance 0 < 1) :=
  ⟨by norm_num, by norm_num,
   LOD_to_distance_logistic_props.1 0 1 (by norm_num) (by norm_num),
   LOD_to_distance_logistic_props.2 0 (by norm_num)⟩

theorem LOD_to_distance_zero_eq : LOD_to_distance 0 = 1 / (1 + Real.exp (-2)) := by
  rw [LOD_to_distance_of_gt 0 (by norm_num)]
  norm_num

theorem LOD_to_distance_anchor :
    |LOD_to_distance 0 - 0.8807970779778823| < 1e-9 := by
  have e_gt := Real.exp_one_gt_d9
  have e_lt := Real.exp_one_lt_d9
  have epos : (0 : ℝ) < Real.exp 1 := Real.exp_pos 1
  have hexp2 : Real.exp (-2 : ℝ) = (Real.exp 1 * Real.exp 1)⁻¹ := by
    rw [show ((-2 : ℝ)) = -(1 + 1) by norm_num, Real.exp_neg, Real.exp_add]
  set u := Real.exp 1 * Real.exp 1 with hu
  have hupos : (0 : ℝ) < u := by positivity
  have hsq_l : (7.389056096 : ℝ) < u := by nlinarith
  have hsq_u : u < (7.3890561 : ℝ) := by nlinarith
  have hform : (1 : ℝ) / (1 + u⁻¹) = u / (u + 1) := by
    rw [inv_eq_one_div]
    field_simp
  rw [LOD_to_distance_zero_eq, hexp2, hform, abs_lt]
  have hden : (0 : ℝ) < u + 1 := by linarith
  have h1 : u / (u + 1) < 0.8807970779778823 + 1e-9 := by
    rw [div_lt_iff₀ hden]
    nlinarith
  have h2 : (0.8807970779778823 : ℝ) - 1e-9 < u / (u + 1) := by
    rw [lt_div_iff₀ hden]
    nlinarith
  constructor <;> linarith

/-- C6: the distance transform is the stated piecewise function: the sentinel
`1.2` exactly for `LOD ≤ -10`, the logistic `1 / (1 + exp(-0.5 * (-LOD + 4)))`
for `LOD > -10`, and at `LOD = 0` the value agrees with the spec's anchor
`0.8807970779778823` (to within `1e-9`, the anchor being the float rounding of
the exact logistic value `1 / (1 + exp (-2))`). -/
theorem LOD_to_distance_spec :
    (∀ lod : ℝ, lod ≤ -10 → LOD_to_distance lod = 1.2) ∧
    (∀ lod : ℝ, lod > -10 →
        LOD_to_distance lod = 1 / (1 + Real.exp ((-0.5) * (-lod + 4)))) ∧
    LOD_to_distance 0 = 1 / (1 + Real.exp (-2)) ∧
    |LOD_to_distance 0 - 0.8807970779778823| < 1e-9 := by
  refine ⟨?_, LOD_to_distance_of_gt, LOD_to_distance_zero_eq, LOD_to_distance_anchor⟩
  intro lod h
  simp [LOD_to_distance, not_lt.mpr h]

/-- Witness for C6 at the concrete inputs `lod = -11` and `lod = 0`. -/
theorem LOD_to_distance_spec_witness :
    ((-11 : ℝ) ≤ -10) ∧ ((0 : ℝ) > -10) ∧
    LOD_to_distance (-11) = 1.2 ∧
    LOD_to_distance 0 = 1 / (1 + Real.exp ((-0.5) * (-(0 : ℝ) + 4))) :=
  ⟨by norm_num, by norm_num,
   LOD_to_distance_spec.1 (-11) (by norm_num),
   LOD_to_distance_spec.2.1 0 (by norm_num)⟩

theorem rescale_matrix_eq_filter_map' (cols : List (String × List ℝ))
    (acc : List (String × List ℝ)) :
    cols.foldl
        (fun acc col =>
          if col.1 = "FILE" then acc
          else acc ++ [(col.1, col.2.map LOD_to_distance)]) acc
      = acc ++ (cols.filter (fun col => decide (¬ col.1 = "FILE"))).map
          (fun col => (col.1, col.2.map LOD_to_distance)) := by
  induction cols generalizing acc with
  | nil => simp
  | cons c cols ih =>
    by_cases h : c.1 = "FILE"
    · simp [List.filter_cons, h, ih]
    · simp [List.filter_cons, h, ih]

theorem rescale_matrix_eq_filter_map (cols : List (String × List ℝ)) :
    rescale_matrix cols
      = (cols.filter (fun col => decide (¬ col.1 = "FILE"))).map
          (fun col => (col.1, col.2.map LOD_to_distance)) := by
  have h := rescale_matrix_eq_filter_map' cols []
  simpa [rescale_matrix] using h

/-- C2 counterexample: on the one-sample matrix with sample column `A` holding
the diagonal cell `LOD(A, A) = 0`, `rescale_matrix` maps the diagonal cell
through the distance transform as well — the output diagonal cell is
`LOD_to_distance 0 ≠ 0`, so it is not true that only off-diagonal cells are
transformed. -/
theorem rescale_matrix_diagonal_counterexample :
    rescale_matrix [("A", [(0 : ℝ)])] = [("A", [LOD_to_distance 0])] ∧
    LOD_to_distance 0 ≠ 0 := by
  constructor
  · simp [rescale_matrix]
  · exact ne_of_gt (LOD_to_distance_pos 0 (by norm_num))

/-- C2 (amended): `rescale_matrix` applies the distance transform to every cell
of every non-`FILE` column — diagonal cells included — dropping the `FILE`
column and keeping column order; in particular each sample column appears in
the output with all of its cells transformed. -/
theorem rescale_matrix_all_cells (cols : List (String × List ℝ)) :
    rescale_matrix cols
      = (cols.filter (fun col => decide (¬ col.1 = "FILE"))).map
          (fun col => (col.1, col.2.map LOD_to_distance)) ∧
    ∀ col ∈ cols, col.1 ≠ "FILE" →
      (col.1, col.2.map LOD_to_distance) ∈ rescale_matrix cols := by
  refine ⟨rescale_matrix_eq_filter_map cols, ?_⟩
  intro col hcol hne
  rw [rescale_matrix_eq_filter_map]
  apply List.mem_map.mpr
  refine ⟨col, ?_, rfl⟩
  apply List.mem_filter.mpr
  exact ⟨hcol, by simpa using hne⟩

/-- Witness for C2's amended theorem at the one-column matrix `[("A", [0])]`. -/
theorem rescale_matrix_all_cells_witness :
    (("A", [(0 : ℝ)]) ∈ [("A", [(0 : ℝ)])]) ∧ ("A" : String) ≠ "FILE" ∧
    (("A" : String), [(0 : ℝ)].map LOD_to_distance)
        ∈ rescale_matrix [("A", [(0 : ℝ)])] :=
  ⟨List.mem_singleton.mpr rfl, by decide,
   (rescale_matrix_all_cells [("A", [(0 : ℝ)])]).2 ("A", [(0 : ℝ)])
     (List.mem_singleton.mpr rfl) (by decide)⟩

set_option maxRecDepth 4000 in
theorem hex_codes_length : hex_codes.length = 255 := by decide

set_option maxRecDepth 20000 in
theorem hex_codes_keys_nodup : (hex_codes.map hexKey).Nodup := by decide

theorem hex_codes_nodup : hex_codes.Nodup :=
  hex_codes_keys_nodup.of_map

theorem colorStep_none (inds : List String) (i : Nat) :
    colorStep inds none i = none := by
  cases h1 : inds[i]? <;> cases h2 : hex_codes[i]? <;> simp [colorStep, h1, h2]

theorem foldl_colorStep_none (inds : List String) (l : List Nat) :
    l.foldl (colorStep inds) none = none := by
  induction l with
  | nil => rfl
  | cons i l ih => rw [List.foldl_cons, colorStep_none, ih]

theorem colorStep_out_of_range (inds : List String)
    (acc : Option (List (String × String))) (i : Nat) (h : 255 ≤ i) :
    colorStep inds acc i = none := by
  have hx : hex_codes[i]? = none := List.getElem?_eq_none (by rw [hex_codes_length]; exact h)
  cases acc <;> cases h1 : inds[i]? <;> simp [colorStep, hx, h1]

theorem zip_take_len {α β : Type} (l : List α) (l' : List β) :
    l.zip (l'.take l.length) = l.zip l' := by
  induction l generalizing l' with
  | nil => simp
  | cons a l ih =>
    cases l' with
    | nil => simp
    | cons b l' => simp [ih]

theorem colorStep_run (inds : List String) :
    ∀ k : Nat, k ≤ inds.length → k ≤ hex_codes.length →
      ∀ cm : List (String × String),
        (List.range k).foldl (colorStep inds) (some cm)
          = some (cm ++ (inds.take k).zip (hex_codes.take k)) := by
  intro k
  induction k with
  | zero => intro _ _ cm; simp
  | succ k ih =>
    intro hk hh cm
    rw [List.range_succ, List.foldl_append,
        ih (Nat.le_of_succ_le hk) (Nat.le_of_succ_le hh)]
    have hik : k < inds.length := hk
    have hhk : k < hex_codes.length := hh
    have h1 : inds[k]? = some inds[k] := List.getElem?_eq_some.mpr ⟨hik, rfl⟩
    have h2 : hex_codes[k]? = some hex_codes[k] := List.getElem?_eq_some.mpr ⟨hhk, rfl⟩
    simp only [List.foldl_cons, List.foldl_nil, colorStep, h1, h2]
    rw [List.take_succ, List.take_succ, h1, h2,
        List.zip_append (by simp [List.length_take, Nat.min_eq_left, Nat.le_of_lt hik, Nat.le_of_lt hhk])]
    simp

theorem create_color_map_eq_zip (m : List (String × String))
    (h : (firstSeenIndividuals m).length ≤ 255) :
    create_color_map m = some ((firstSeenIndividuals m).zip hex_codes) := by
  have hrun := colorStep_run (firstSeenIndividuals m) (firstSeenIndividuals m).length
    le_rfl (by rw [hex_codes_length]; exact h) []
  rw [create_color_map, hrun, List.take_length, zip_take_len]
  simp

/-- C4: with more than 269 distinct individuals the color assignment hits an
out-of-range palette index (modelled as `none`); no guard fires first. -/
theorem create_color_map_overflow (m : List (String × String))
    (h : 269 < (firstSeenIndividuals m).length) :
    create_color_map m = none := by
  obtain ⟨d, hd⟩ : ∃ d, (firstSeenIndividuals m).length = 256 + d :=
    ⟨(firstSeenIndividuals m).length - 256, by omega⟩
  rw [create_color_map, hd, List.range_add, List.foldl_append]
  have h256 : (256 : ℕ) = 255 + 1 := rfl
  rw [h256, List.range_succ, List.foldl_append]
  rw [show List.foldl (colorStep (firstSeenIndividuals m))
        (List.foldl (colorStep (firstSeenIndividuals m)) (some []) (List.range 255)) [255]
      = colorStep (firstSeenIndividuals m)
          (List.foldl (colorStep (firstSeenIndividuals m)) (some []) (List.range 255)) 255
    from by simp]
  rw [colorStep_out_of_range _ _ _ le_rfl, foldl_colorStep_none]

theorem firstSeen_foldl_of_nodup :
    ∀ (l : List (String × String)) (acc : List String),
      (acc ++ l.map Prod.snd).Nodup →
      l.foldl (fun acc p => if p.2 ∈ acc then acc else acc ++ [p.2]) acc
        = acc ++ l.map Prod.snd := by
  intro l
  induction l with
  | nil => intro acc _; simp
  | cons p l ih =>
    intro acc h
    have hp : p.2 ∉ acc := by
      rcases List.nodup_append.mp h with ⟨_, _, hdisj⟩
      intro hmem
      exact hdisj hmem (by simp)
    rw [List.foldl_cons, if_neg hp, ih (acc ++ [p.2]) (by simpa using h)]
    simp

theorem firstSeen_of_nodup (l : List (String × String))
    (h : (l.map Prod.snd).Nodup) :
    firstSeenIndividuals l = l.map Prod.snd := by
  have := firstSeen_foldl_of_nodup l [] (by simpa using h)
  simpa [firstSeenIndividuals] using this

theorem firstSeen_nodup_aux :
    ∀ (l : List (String × String)) (acc : List String), acc.Nodup →
      (l.foldl (fun acc p => if p.2 ∈ acc then acc else acc ++ [p.2]) acc).Nodup := by
  intro l
  induction l with
  | nil => intro acc h; simpa using h
  | cons p l ih =>
    intro acc h
    rw [List.foldl_cons]
    by_cases hp : p.2 ∈ acc
    · rw [if_pos hp]; exact ih acc h
    · rw [if_neg hp]
      exact ih (acc ++ [p.2])
        (List.nodup_append.mpr ⟨h, List.nodup_singleton _, by simpa using hp⟩)

theorem firstSeen_nodup (m : List (String × String)) :
    (firstSeenIndividuals m).Nodup :=
  firstSeen_nodup_aux m [] List.nodup_nil

theorem probeName_injective : Function.Injective probeName := by
  intro a b h
  have := congrArg (fun s => s.data.length) h
  simpa [probeName] using this

theorem probeMap_firstSeen_length :
    269 < (firstSeenIndividuals probeMap).length := by
  have hmap : probeMap.map Prod.snd = (List.range 270).map probeName := by
    rw [probeMap, List.map_map]
    rfl
  have hnodup : (probeMap.map Prod.snd).Nodup := by
    rw [hmap]
    exact (List.nodup_range 270).map probeName_injective
  rw [firstSeen_of_nodup probeMap hnodup, hmap]
  simp

/-- Witness for C4: on a map with 270 distinct individuals, `create_color_map`
fails with the out-of-range palette index. -/
theorem create_color_map_overflow_witness :
    269 < (firstSeenIndividuals probeMap).length ∧
    create_color_map probeMap = none :=
  ⟨probeMap_firstSeen_length, create_color_map_overflow probeMap probeMap_firstSeen_length⟩

/-- C5 counterexample: the palette does not have 269 entries — `hex_codes` has
exactly 255 entries, refuting the claim's premise that 269 pairwise-distinct
palette slots (indexed 0..268) exist. -/
theorem hex_codes_length_ne_269 : hex_codes.length = 255 ∧ hex_codes.length ≠ 269 :=
  ⟨hex_codes_length, by rw [hex_codes_length]; norm_num⟩

/-- C5 (amended): with the palette's actual 255 pairwise-distinct entries —
while at most 255 distinct individuals exist — color assignment is
deterministic and idempotent, the `i`-th first-seen individual claims palette
entry `i`, and two distinct positions of the resulting map never share a
color. -/
theorem create_color_map_props (m : List (String × String))
    (h : (firstSeenIndividuals m).length ≤ 255) :
    create_color_map m = create_color_map m ∧
    create_color_map m = some ((firstSeenIndividuals m).zip hex_codes) ∧
    (firstSeenIndividuals m).Nodup ∧
    hex_codes.length = 255 ∧ hex_codes.Nodup ∧
    (∀ (i j : Nat) (ci cj : String × String),
        ((firstSeenIndividuals m).zip hex_codes)[i]? = some ci →
        ((firstSeenIndividuals m).zip hex_codes)[j]? = some cj →
        i ≠ j → ci.2 ≠ cj.2) := by
  refine ⟨rfl, create_color_map_eq_zip m h, firstSeen_nodup m,
    hex_codes_length, hex_codes_nodup, ?_⟩
  intro i j ci cj hi hj hij
  obtain ⟨hi', hci⟩ := List.getElem?_eq_some.mp hi
  obtain ⟨hj', hcj⟩ := List.getElem?_eq_some.mp hj
  have hilen : i < hex_codes.length := by
    have := hi'
    simp [List.length_zip] at this
    omega
  have hjlen : j < hex_codes.length := by
    have := hj'
    simp [List.length_zip] at this
    omega
  have hgi : ci.2 = hex_codes[i] := by
    rw [← hci, List.getElem_zip]
  have hgj : cj.2 = hex_codes[j] := by
    rw [← hcj, List.getElem_zip]
  rw [hgi, hgj]
  intro heq
  exact hij ((hex_codes_nodup.getElem_inj_iff).mp heq)

/-- Witness for C5's amended theorem on the concrete three-sample map
`{s1 → i1, s2 → i1, s3 → i2}`. -/
theorem create_color_map_props_witness :
    (firstSeenIndividuals [("s1", "i1"), ("s2", "i1"), ("s3", "i2")]).length ≤ 255 ∧
    create_color_map [("s1", "i1"), ("s2", "i1"), ("s3", "i2")]
      = some ((firstSeenIndividuals
          [("s1", "i1"), ("s2", "i1"), ("s3", "i2")]).zip hex_codes) :=
  ⟨by decide, (create_color_map_props [("s1", "i1"), ("s2", "i1"), ("s3", "i2")] (by decide)).2.1⟩

theorem processCell_edges_mono (minw : ℚ) (r : String)
    (st : List Edge × Bool) (c : String × String × ℚ) (e : Edge)
    (h : e ∈ st.1) : e ∈ (processCell minw r st c).1 := by
  rw [processCell]
  dsimp only
  split_ifs <;> simp_all

theorem foldl_processCell_edges_mono (minw : ℚ) (r : String) :
    ∀ (cells : List (String × String × ℚ)) (st : List Edge × Bool) (e : Edge),
      e ∈ st.1 → e ∈ (cells.foldl (processCell minw r) st).1 := by
  intro cells
  induction cells with
  | nil => intro st e h; exact h
  | cons c cells ih =>
    intro st e h
    exact ih _ e (processCell_edges_mono minw r st c e h)

theorem processRow_edges_mono (singletons : List String) (minw : ℚ)
    (st : List Edge × List String) (row : MatrixRow) (e : Edge)
    (h : e ∈ st.1) : e ∈ (processRow singletons minw st row).1 := by
  rw [processRow]
  split
  · exact foldl_processCell_edges_mono minw row.file row.cells (st.1, true) e h
  · exact h

theorem processRow_noCov_mono (singletons : List String) (minw : ℚ)
    (st : List Edge × List String) (row : MatrixRow) (s : String)
    (h : s ∈ st.2) : s ∈ (processRow singletons minw st row).2 := by
  rw [processRow]
  dsimp only
  split_ifs <;> simp_all

theorem foldl_processRow_edges_mono (singletons : List String) (minw : ℚ) :
    ∀ (rows : List MatrixRow) (st : List Edge × List String) (e : Edge),
      e ∈ st.1 → e ∈ (rows.foldl (processRow singletons minw) st).1 := by
  intro rows
  induction rows with
  | nil => intro st e h; exact h
  | cons row rows ih =>
    intro st e h
    exact ih _ e (processRow_edges_mono singletons minw st row e h)

theorem foldl_processRow_noCov_mono (singletons : List String) (minw : ℚ) :
    ∀ (rows : List MatrixRow) (st : List Edge × List String) (s : String),
      s ∈ st.2 → s ∈ (rows.foldl (processRow singletons minw) st).2 := by
  intro rows
  induction rows with
  | nil => intro st s h; exact h
  | cons row rows ih =>
    intro st s h
    exact ih _ s (processRow_noCov_mono singletons minw st row s h)

theorem processRow_noCov_subset (singletons : List String) (minw : ℚ)
    (st : List Edge × List String) (row : MatrixRow)
    (hst : ∀ s ∈ st.2, s ∈ singletons) :
    ∀ s ∈ (processRow singletons minw st row).2, s ∈ singletons := by
  intro s hs
  rw [processRow] at hs
  by_cases hin : row.file ∈ singletons
  · rw [if_pos hin] at hs
    dsimp only at hs
    by_cases hflag :
        (row.cells.foldl (processCell minw row.file) (st.1, true)).2 = true
    · rw [if_pos hflag] at hs
      rcases List.mem_append.mp hs with h | h
      · exact hst s h
      · rw [List.mem_singleton.mp h]; exact hin
    · rw [if_neg hflag] at hs; exact hst s hs
  · rw [if_neg hin] at hs; exact hst s hs

theorem foldl_processRow_noCov_subset (singletons : List String) (minw : ℚ) :
    ∀ (rows : List MatrixRow) (st : List Edge × List String),
      (∀ s ∈ st.2, s ∈ singletons) →
      ∀ s ∈ (rows.foldl (processRow singletons minw) st).2, s ∈ singletons := by
  intro rows
  induction rows with
  | nil => intro st hst; exact hst
  | cons row rows ih =>
    intro st hst
    exact ih _ (processRow_noCov_subset singletons minw st row hst)

/-- C9: every sample in the no-coverage list returned by `find_edges` is a
member of the `singletons` input — non-singleton rows are skipped before any
coverage check. -/
theorem find_edges_noCov_mem_singletons (singletons : List String)
    (matrix : List MatrixRow) (minw : ℚ) (s : String)
    (h : s ∈ (find_edges singletons matrix minw).2) : s ∈ singletons :=
  foldl_processRow_noCov_subset singletons minw matrix ([], [])
    (by intro s hs; simp at hs) s h

/-- Witness for C9 on a one-row matrix whose sample lands in the no-coverage
list. -/
theorem find_edges_noCov_mem_singletons_witness :
    ("A" ∈ (find_edges ["A"] [rowA0] 1).2) ∧ "A" ∈ ["A"] :=
  ⟨by decide, find_edges_noCov_mem_singletons ["A"] [rowA0] 1 "A" (by decide)⟩

theorem processCell_flag_of_zero (minw : ℚ) (r : String)
    (st : List Edge × Bool) (c : String × String × ℚ)
    (h : c.1 = "FILE" ∨ c.2.2 = 0) :
    (processCell minw r st c).2 = st.2 := by
  rcases h with h | h
  · rw [processCell, if_pos h]
  · rw [processCell]
    dsimp only
    split_ifs <;> simp_all

theorem foldl_processCell_flag_of_zero (minw : ℚ) (r : String) :
    ∀ (cells : List (String × String × ℚ)) (st : List Edge × Bool),
      (∀ c ∈ cells, c.1 = "FILE" ∨ c.2.2 = 0) →
      (cells.foldl (processCell minw r) st).2 = st.2 := by
  intro cells
  induction cells with
  | nil => intro st _; rfl
  | cons c cells ih =>
    intro st hz
    rw [List.foldl_cons, ih _ (fun d hd => hz d (List.mem_cons_of_mem c hd)),
      processCell_flag_of_zero minw r st c (hz c (List.mem_cons_self c cells))]

theorem find_edges_no_coverage_aux (singletons : List String) (minw : ℚ) :
    ∀ (rows : List MatrixRow) (st : List Edge × List String) (row : MatrixRow),
      row ∈ rows → row.file ∈ singletons →
      (∀ c ∈ row.cells, c.1 = "FILE" ∨ c.2.2 = 0) →
      row.file ∈ (rows.foldl (processRow singletons minw) st).2 := by
  intro rows
  induction rows with
  | nil => intro st row h; simp at h
  | cons r0 rows ih =>
    intro st row hmem hsing hz
    rcases List.mem_cons.mp hmem with heq | htail
    · subst heq
      rw [List.foldl_cons]
      apply foldl_processRow_noCov_mono
      rw [processRow, if_pos hsing]
      dsimp only
      rw [foldl_processCell_flag_of_zero minw row.file row.cells (st.1, true) hz]
      simp
    · rw [List.foldl_cons]
      exact ih _ row htail hsing hz

/-- C1 (amended): for every singleton sample whose entire matrix row (excluding
the FILE identifier column) parses to 0 in every cell, `find_edges` includes
that sample in the returned no-coverage list, regardless of whether the sample
produced edges.  (The singleton restriction is forced: non-singleton rows are
skipped before the coverage check.) -/
theorem find_edges_no_coverage (singletons : List String)
    (matrix : List MatrixRow) (minw : ℚ) (row : MatrixRow)
    (hrow : row ∈ matrix) (hsing : row.file ∈ singletons)
    (hzero : ∀ c ∈ row.cells, c.1 ≠ "FILE" → c.2.2 = 0) :
    row.file ∈ (find_edges singletons matrix minw).2 :=
  find_edges_no_coverage_aux singletons minw matrix ([], []) row hrow hsing
    (fun c hc => by
      by_cases h : c.1 = "FILE"
      · exact Or.inl h
      · exact Or.inr (hzero c hc h))

/-- C1 counterexample: sample `A`'s entire row (one non-FILE cell) parses to 0,
but `A` is not in `singletons`, and `find_edges` leaves the no-coverage list
empty — the claim without the singleton restriction is false. -/
theorem find_edges_no_coverage_counterexample :
    (∀ c ∈ rowA0.cells, c.1 ≠ "FILE" → c.2.2 = 0) ∧
    "A" ∉ (find_edges [] [rowA0] 1).2 := by
  constructor
  · decide
  · decide

/-- Witness for C1's amended theorem on a one-row all-zero singleton matrix. -/
theorem find_edges_no_coverage_witness :
    (rowA0 ∈ [rowA0]) ∧ rowA0.file ∈ ["A"] ∧
    (∀ c ∈ rowA0.cells, c.1 ≠ "FILE" → c.2.2 = 0) ∧
    rowA0.file ∈ (find_edges ["A"] [rowA0] 1).2 :=
  ⟨by decide, by decide, by decide,
   find_edges_no_coverage ["A"] [rowA0] 1 rowA0 (by decide) (by decide) (by decide)⟩

theorem processCell_at_candidate (minw : ℚ) (r : String)
    (st : List Edge × Bool) (B s : String) (v : ℚ)
    (hv : v > minw) (hBF : B ≠ "FILE") (hBr : B ≠ r) :
    (r, B, s) ∈ (processCell minw r st (B, s, v)).1 ∨
    (B, r, s) ∈ (processCell minw r st (B, s, v)).1 := by
  rw [processCell]
  dsimp only
  rw [if_neg hBF, if_pos hv]
  have hst1 : (if (v : ℚ) ≠ 0 then (st.1, false) else st).1 = st.1 := by
    split <;> rfl
  by_cases hm : ((B, r, s) : Edge) ∈ (if (v : ℚ) ≠ 0 then (st.1, false) else st).1
  · rw [if_pos hm]
    right
    rw [hst1] at hm ⊢
    exact hm
  · rw [if_neg hm, if_neg hBr]
    left
    simp

theorem foldl_processCell_at_candidate (minw : ℚ) (r : String) :
    ∀ (cells : List (String × String × ℚ)) (st : List Edge × Bool)
      (B s : String) (v : ℚ),
      (B, s, v) ∈ cells → v > minw → B ≠ "FILE" → B ≠ r →
      (r, B, s) ∈ (cells.foldl (processCell minw r) st).1 ∨
      (B, r, s) ∈ (cells.foldl (processCell minw r) st).1 := by
  intro cells
  induction cells with
  | nil => intro st B s v h; simp at h
  | cons c cells ih =>
    intro st B s v hmem hv hBF hBr
    rcases List.mem_cons.mp hmem with heq | htail
    · subst heq
      rw [List.foldl_cons]
      rcases processCell_at_candidate minw r st B s v hv hBF hBr with h | h
      · exact Or.inl (foldl_processCell_edges_mono minw r cells _ _ h)
      · exact Or.inr (foldl_processCell_edges_mono minw r cells _ _ h)
    · rw [List.foldl_cons]
      exact ih _ B s v htail hv hBF hBr

theorem processRow_at_candidate (singletons : List String) (minw : ℚ)
    (st : List Edge × List String) (row : MatrixRow) (B s : String) (v : ℚ)
    (hsing : row.file ∈ singletons) (hc : (B, s, v) ∈ row.cells)
    (hv : v > minw) (hBF : B ≠ "FILE") (hBr : B ≠ row.file) :
    (row.file, B, s) ∈ (processRow singletons minw st row).1 ∨
    (B, row.file, s) ∈ (processRow singletons minw st row).1 := by
  rw [processRow, if_pos hsing]
  dsimp only
  exact foldl_processCell_at_candidate minw row.file row.cells (st.1, true)
    B s v hc hv hBF hBr

theorem find_edges_at_candidate_aux (singletons : List String) (minw : ℚ) :
    ∀ (rows : List MatrixRow) (st : List Edge × List String)
      (row : MatrixRow) (B s : String) (v : ℚ),
      row ∈ rows → row.file ∈ singletons → (B, s, v) ∈ row.cells →
      v > minw → B ≠ "FILE" → B ≠ row.file →
      (row.file, B, s) ∈ (rows.foldl (processRow singletons minw) st).1 ∨
      (B, row.file, s) ∈ (rows.foldl (processRow singletons minw) st).1 := by
  intro rows
  induction rows with
  | nil => intro st row B s v h; simp at h
  | cons r0 rows ih =>
    intro st row B s v hmem hsing hc hv hBF hBr
    rcases List.mem_cons.mp hmem with heq | htail
    · subst heq
      rw [List.foldl_cons]
      rcases processRow_at_candidate singletons minw st row B s v hsing hc hv hBF hBr
        with h | h
      · exact Or.inl (foldl_processRow_edges_mono singletons minw rows _ _ h)
      · exact Or.inr (foldl_processRow_edges_mono singletons minw rows _ _ h)
    · rw [List.foldl_cons]
      exact ih _ row B s v htail hsing hc hv hBF hBr

theorem edgeInv_nil : EdgeInv [] := by
  constructor <;> simp [EdgeInv]

theorem edgeInv_append (E : List Edge) (r c t : String) (h : EdgeInv E)
    (hmir : (c, r, t) ∉ E) (hrc : c ≠ r) : EdgeInv (E ++ [(r, c, t)]) := by
  constructor
  · rintro a b u hab ⟨h1, h2⟩
    rw [List.mem_append, List.mem_singleton] at h1 h2
    rcases h1 with h1 | h1
    · rcases h2 with h2 | h2
      · exact h.1 a b u hab ⟨h1, h2⟩
      · rw [Prod.mk.injEq, Prod.mk.injEq] at h2
        obtain ⟨h2a, h2b, h2c⟩ := h2
        rw [← h2b, ← h2a, ← h2c] at hmir
        exact hmir h1
    · rcases h2 with h2 | h2
      · rw [Prod.mk.injEq, Prod.mk.injEq] at h1
        obtain ⟨h1a, h1b, h1c⟩ := h1
        rw [← h1b, ← h1a, ← h1c] at hmir
        exact hmir h2
      · rw [Prod.mk.injEq, Prod.mk.injEq] at h1 h2
        exact hab (h1.1.trans h2.1.symm)
  · intro a u ha
    rw [List.mem_append, List.mem_singleton] at ha
    rcases ha with ha | ha
    · exact h.2 a u ha
    · rw [Prod.mk.injEq, Prod.mk.injEq] at ha
      exact hrc (ha.2.1.symm.trans ha.1)

theorem processCell_inv (minw : ℚ) (r : String)
    (st : List Edge × Bool) (c : String × String × ℚ)
    (h : EdgeInv st.1) : EdgeInv (processCell minw r st c).1 := by
  rw [processCell]
  dsimp only
  by_cases hF : c.1 = "FILE"
  · rw [if_pos hF]; exact h
  · rw [if_neg hF]
    have hst1 : (if c.2.2 ≠ 0 then (st.1, false) else st).1 = st.1 := by
      split <;> rfl
    by_cases ht : c.2.2 > minw
    · rw [if_pos ht]
      by_cases hm : ((c.1, r, c.2.1) : Edge) ∈
          (if c.2.2 ≠ 0 then (st.1, false) else st).1
      · rw [if_pos hm, hst1]; exact h
      · rw [if_neg hm]
        by_cases hself : c.1 = r
        · rw [if_pos hself, hst1]; exact h
        · rw [if_neg hself]
          dsimp only
          rw [hst1]
          rw [hst1] at hm
          exact edgeInv_append st.1 r c.1 c.2.1 h hm hself
    · rw [if_neg ht, hst1]; exact h

theorem foldl_processCell_inv (minw : ℚ) (r : String) :
    ∀ (cells : List (String × String × ℚ)) (st : List Edge × Bool),
      EdgeInv st.1 → EdgeInv ((cells.foldl (processCell minw r) st).1) := by
  intro cells
  induction cells with
  | nil => intro st h; exact h
  | cons c cells ih =>
    intro st h
    exact ih _ (processCell_inv minw r st c h)

theorem processRow_inv (singletons : List String) (minw : ℚ)
    (st : List Edge × List String) (row : MatrixRow)
    (h : EdgeInv st.1) : EdgeInv (processRow singletons minw st row).1 := by
  rw [processRow]
  by_cases hin : row.file ∈ singletons
  · rw [if_pos hin]
    dsimp only
    exact foldl_processCell_inv minw row.file row.cells (st.1, true) h
  · rw [if_neg hin]; exact h

theorem find_edges_inv (singletons : List String) (matrix : List MatrixRow)
    (minw : ℚ) : EdgeInv (find_edges singletons matrix minw).1 := by
  rw [find_edges]
  have haux : ∀ (rows : List MatrixRow) (st : List Edge × List String),
      EdgeInv st.1 → EdgeInv ((rows.foldl (processRow singletons minw) st).1) := by
    intro rows
    induction rows with
    | nil => intro st h; exact h
    | cons row rows ih =>
      intro st h
      exact ih _ (processRow_inv singletons minw st row h)
  exact haux matrix ([], []) edgeInv_nil

/-- C3: when singleton rows for distinct samples `A` and `B` each hold an
above-threshold cell for the other with the same score text `s`, `find_edges`
emits exactly one of `(A, B, s)` and `(B, A, s)` (undirected dedup), and the
edge list never contains a self-loop `(X, X, t)`. -/
theorem find_edges_dedup (singletons : List String) (matrix : List MatrixRow)
    (minw : ℚ) (A B s : String) (vA vB : ℚ) (rowA rowB : MatrixRow)
    (hA : rowA ∈ matrix) (hAf : rowA.file = A) (hAs : A ∈ singletons)
    (hAc : (B, s, vA) ∈ rowA.cells) (hAv : vA > minw)
    (_hB : rowB ∈ matrix) (_hBf : rowB.file = B) (_hBs : B ∈ singletons)
    (_hBc : (A, s, vB) ∈ rowB.cells) (_hBv : vB > minw)
    (hAB : A ≠ B) (hBF : B ≠ "FILE") :
    Xor' ((A, B, s) ∈ (find_edges singletons matrix minw).1)
         ((B, A, s) ∈ (find_edges singletons matrix minw).1) ∧
    ∀ X t, (X, X, t) ∉ (find_edges singletons matrix minw).1 := by
  have hinv := find_edges_inv singletons matrix minw
  have hor := find_edges_at_candidate_aux singletons minw matrix ([], [])
    rowA B s vA hA (by rw [hAf]; exact hAs) hAc hAv hBF
    (by rw [hAf]; exact fun hBA => hAB hBA.symm)
  rw [hAf] at hor
  have hfind : (find_edges singletons matrix minw).1
      = (matrix.foldl (processRow singletons minw) ([], [])).1 := rfl
  rw [← hfind] at hor
  constructor
  · rcases hor with hp | hq
    · exact Or.inl ⟨hp, fun hq' => hinv.1 A B s hAB ⟨hp, hq'⟩⟩
    · exact Or.inr ⟨hq, fun hp' => hinv.1 A B s hAB ⟨hp', hq⟩⟩
  · exact hinv.2

/-- Witness for C3 on the two-row mirror matrix with threshold 1. -/
theorem find_edges_dedup_witness :
    (rowAB ∈ [rowAB, rowBA]) ∧ rowAB.file = "A" ∧ ("A" ∈ ["A", "B"]) ∧
    (("B", "7.0", (7 : ℚ)) ∈ rowAB.cells) ∧ ((7 : ℚ) > 1) ∧
    (rowBA ∈ [rowAB, rowBA]) ∧ rowBA.file = "B" ∧ ("B" ∈ ["A", "B"]) ∧
    (("A", "7.0", (7 : ℚ)) ∈ rowBA.cells) ∧
    ("A" : String) ≠ "B" ∧ ("B" : String) ≠ "FILE" ∧
    (Xor' (("A", "B", "7.0") ∈ (find_edges ["A", "B"] [rowAB, rowBA] 1).1)
          (("B", "A", "7.0") ∈ (find_edges ["A", "B"] [rowAB, rowBA] 1).1) ∧
     ∀ X t, (X, X, t) ∉ (find_edges ["A", "B"] [rowAB, rowBA] 1).1) :=
  ⟨by decide, by decide, by decide, by decide, by decide,
   by decide, by decide, by decide, by decide, by decide, by decide,
   find_edges_dedup ["A", "B"] [rowAB, rowBA] 1 "A" "B" "7.0" 7 7 rowAB rowBA
     (by decide) (by decide) (by decide) (by decide) (by decide)
     (by decide) (by decide) (by decide) (by decide) (by decide)
     (by decide) (by decide)⟩
